import Mathlib

/-!
Verification of the manga-frame-reshuffle repository.

The repository's core is `reshuffle_image` in `src/shuffler/shuffler.py`
(duplicated in `src/shuffler.py`), which operates on numpy arrays of
unsigned 8-bit samples with shape `(height, width, channels)`.  We embed
images as a shape triple plus a total pixel function into `Fin 256`
(`np.uint8`), and we embed the numpy slice-assignment primitive used by the
source, including Python slice normalisation (negative starts, clamping to
the array bounds) and numpy's broadcast check, which raises a `ValueError`
when the source slice cannot be broadcast into the destination slice.
A raised Python exception is modelled as `none` / `Option.none`.
-/

/-- An image buffer: a numpy `uint8` array of shape
`(height, width, channels)`.  The `data` function is total; entries outside
the shape are irrelevant junk (the embedded operations never read them). -/
@[ext]
structure Image where
  height : ℕ
  width : ℕ
  channels : ℕ
  data : ℕ → ℕ → ℕ → Fin 256

/-- The shuffle settings namedtuple
`Settings(b_height, b_width, h_blocks, v_blocks, bp)` built in `main`. -/
structure Settings where
  b_height : ℕ
  b_width : ℕ
  h_blocks : ℕ
  v_blocks : ℕ
  bp : ℕ

/-- Model of `np.zeros(image.shape, np.uint8)`. -/
def Image.zerosLike (img : Image) : Image :=
  ⟨img.height, img.width, img.channels, fun _ _ _ => 0⟩

/-- Number of elements selected by the Python slice `[a:b]` on an axis of
length `n` (for non-negative, already-normalised endpoints): both endpoints
clamp to `n` and a reversed range is empty. -/
def sliceExt (a b n : ℕ) : ℕ := min b n - min a n

/-- The numpy broadcast check performed by
`dst[dr0:dr1, dc0:dc1] = src[sr0:sr1, sc0:sc1]`: on each axis the source
extent must equal the destination extent or be `1`; otherwise numpy raises
`ValueError: could not broadcast input array`. -/
def assignOK (dst : Image) (dr0 dr1 dc0 dc1 : ℕ)
    (src : Image) (sr0 sr1 sc0 sc1 : ℕ) : Prop :=
  (sliceExt sr0 sr1 src.height = sliceExt dr0 dr1 dst.height ∨
     sliceExt sr0 sr1 src.height = 1) ∧
  (sliceExt sc0 sc1 src.width = sliceExt dc0 dc1 dst.width ∨
     sliceExt sc0 sc1 src.width = 1) ∧
  (src.channels = dst.channels ∨ src.channels = 1)

instance (dst : Image) (dr0 dr1 dc0 dc1 : ℕ)
    (src : Image) (sr0 sr1 sc0 sc1 : ℕ) :
    Decidable (assignOK dst dr0 dr1 dc0 dc1 src sr0 sr1 sc0 sc1) := by
  unfold assignOK
  infer_instance

/-- The pixel function after the slice assignment
`dst[dr0:dr1, dc0:dc1] = src[sr0:sr1, sc0:sc1]` succeeds: positions inside
the (clamped) destination rectangle take the source pixel at the same
offset from the start of the source slice (an axis whose source extent is
`1` is broadcast, i.e. read at offset `0`); all other positions keep the
destination's previous pixel.  The channel axis, untouched by the
two-index subscripts of the source code, is carried through, with numpy's
channel broadcast for a single-channel source. -/
def writeData (dst : Image) (dr0 dr1 dc0 dc1 : ℕ)
    (src : Image) (sr0 sr1 sc0 sc1 : ℕ) : ℕ → ℕ → ℕ → Fin 256 :=
  fun r c k =>
    if min dr0 dst.height ≤ r ∧ r < min dr1 dst.height ∧
       min dc0 dst.width ≤ c ∧ c < min dc1 dst.width then
      src.data
        (min sr0 src.height +
          (if sliceExt sr0 sr1 src.height = 1 then 0 else r - min dr0 dst.height))
        (min sc0 src.width +
          (if sliceExt sc0 sc1 src.width = 1 then 0 else c - min dc0 dst.width))
        (if src.channels = 1 then 0 else k)
    else dst.data r c k

/-- Model of the numpy statement
`dst[dr0:dr1, dc0:dc1] = src[sr0:sr1, sc0:sc1]`: `none` models the
`ValueError` raised when the broadcast check fails. -/
def npAssign (dst : Image) (dr0 dr1 dc0 dc1 : ℕ)
    (src : Image) (sr0 sr1 sc0 sc1 : ℕ) : Option Image :=
  if assignOK dst dr0 dr1 dc0 dc1 src sr0 sr1 sc0 sc1 then
    some { dst with data := writeData dst dr0 dr1 dc0 dc1 src sr0 sr1 sc0 sc1 }
  else none

/-- Normalised start row of the Python slice `[-bp:]` on an axis of length
`h`: for `bp > 0` it is `max (h - bp) 0` (which truncated subtraction gives
directly); for `bp = 0` the literal `-0` is `0`, so the slice is the FULL
axis, not an empty one. -/
def marginStart (h bp : ℕ) : ℕ := if bp = 0 then 0 else h - bp

/-- The statement `processed_image[-bp:, :] = image[-bp:, :]` of
`reshuffle_image`, applied to the freshly allocated zero buffer. -/
def marginAssign (image : Image) (s : Settings) : Option Image :=
  npAssign (Image.zerosLike image)
    (marginStart image.height s.bp) image.height 0 image.width
    image
    (marginStart image.height s.bp) image.height 0 image.width

/-- One loop body iteration of `reshuffle_image`:
`processed_image[j*b_height:j*b_height+b_height, i*b_width:i*b_width+b_width]
 = image[i*b_height:i*b_height+b_height, j*b_width:j*b_width+b_width]`. -/
def blockAssign (image : Image) (s : Settings) (acc : Image) (i j : ℕ) :
    Option Image :=
  npAssign acc
    (j * s.b_height) (j * s.b_height + s.b_height)
    (i * s.b_width) (i * s.b_width + s.b_width)
    image
    (i * s.b_height) (i * s.b_height + s.b_height)
    (j * s.b_width) (j * s.b_width + s.b_width)

/-- Run the loop body over a list of grid pairs `(i, j)` in order,
stopping at the first raised error, exactly as the Python loop would. -/
def runBlocks (image : Image) (s : Settings) (acc : Image) :
    List (ℕ × ℕ) → Option Image
  | [] => some acc
  | p :: ps =>
      (blockAssign image s acc p.1 p.2).bind fun a => runBlocks image s a ps

/-- The enumeration order of the source's nested loops
`for i in range(h_blocks): for j in range(v_blocks):`. -/
def gridPairs (s : Settings) : List (ℕ × ℕ) :=
  (List.range s.h_blocks).flatMap fun i =>
    (List.range s.v_blocks).map fun j => (i, j)

/-- The opposite enumeration order,
`for j in range(v_blocks): for i in range(h_blocks):`, used only to state
that the result of `reshuffle_image` is independent of the loop order. -/
def gridPairsSwapped (s : Settings) : List (ℕ × ℕ) :=
  (List.range s.v_blocks).flatMap fun j =>
    (List.range s.h_blocks).map fun i => (i, j)

/-- Model of `reshuffle_image(image, settings)` from
`src/shuffler/shuffler.py` lines 140-164 (identical to `src/shuffler.py`
lines 92-107): allocate a zero buffer of the same shape and dtype, copy the
bottom `bp` rows, then run the nested block-copy loops.  `none` models a
raised `ValueError`. -/
def reshuffle_image (image : Image) (s : Settings) : Option Image :=
  (marginAssign image s).bind fun m => runBlocks image s m (gridPairs s)

/-- The same operation with the two nested loops interchanged;
only used to state loop-order independence. -/
def reshuffle_image_swapped (image : Image) (s : Settings) : Option Image :=
  (marginAssign image s).bind fun m => runBlocks image s m (gridPairsSwapped s)

/-- Model of `join_images(image_list)` = `np.hstack(tuple(image_list))`
specialised to the two-image case the pipeline uses: concatenation along
axis 1.  `np.hstack` raises a dimension-mismatch `ValueError` (modelled as
`none`) unless all axes other than axis 1 agree. -/
def join_images (a b : Image) : Option Image :=
  if a.height = b.height ∧ a.channels = b.channels then
    some ⟨a.height, a.width + b.width, a.channels,
      fun r c k => if c < a.width then a.data r c k else b.data r (c - a.width) k⟩
  else none

/-- A candidate path handed to `load_files`: its display name, its
extension as computed by `Path(file_path).suffix` /
`os.path.splitext(file_path)[1]`, and whether the path refers to an
existing file (the filesystem oracle `Path(...).is_file()` /
`os.path.isfile`). -/
structure PathInfo where
  name : String
  suffix : String
  isFile : Bool
deriving DecidableEq, Repr

/-- `IMAGE_EXTS = ['.png', '.jpg', '.jpeg']`. -/
def IMAGE_EXTS : List String := [".png", ".jpg", ".jpeg"]

/-- `is_file_exist` from `src/shuffler/shuffler.py`:
`return Path(path).is_file()`. -/
def is_file_exist (p : PathInfo) : Bool := p.isFile

/-- `is_file_exist` from `src/shuffler.py`:
`return not os.path.isfile(path)` (note the negation). -/
def is_file_exist_flat (p : PathInfo) : Bool := !p.isFile

/-- `load_files` from `src/shuffler/shuffler.py` lines 102-121: keep, in
input order, the paths that exist and whose extension is in `IMAGE_EXTS`;
raise `NoImagesError` (modelled as `none`) when none qualifies. -/
def load_files (file_list : List PathInfo) : Option (List PathInfo) :=
  let file_names :=
    file_list.filter fun p => is_file_exist p && IMAGE_EXTS.contains p.suffix
  if file_names.isEmpty then none else some file_names

/-- `load_files` from `src/shuffler.py` lines 67-82, identical except that
it calls that file's inverted `is_file_exist`. -/
def load_files_flat (file_list : List PathInfo) : Option (List PathInfo) :=
  let file_names :=
    file_list.filter fun p => is_file_exist_flat p && IMAGE_EXTS.contains p.suffix
  if file_names.isEmpty then none else some file_names

/-! ### Derived geometry of the block copies -/

/-- Clamped first row of the destination region of grid pair `(i, j)`
(rows are indexed by `j`): `min (j*b_height) height`. -/
def rowLo (img : Image) (s : Settings) (t : ℕ) : ℕ :=
  min (t * s.b_height) img.height

/-- Clamped end row (exclusive) of the destination region of row-block
index `t`. -/
def rowHi (img : Image) (s : Settings) (t : ℕ) : ℕ :=
  min (t * s.b_height + s.b_height) img.height

/-- Clamped first column of the column-block index `t`. -/
def colLo (img : Image) (s : Settings) (t : ℕ) : ℕ :=
  min (t * s.b_width) img.width

/-- Clamped end column (exclusive) of the column-block index `t`. -/
def colHi (img : Image) (s : Settings) (t : ℕ) : ℕ :=
  min (t * s.b_width + s.b_width) img.width

/-- Truncated row extent of row-block index `t`. -/
def rext (img : Image) (s : Settings) (t : ℕ) : ℕ :=
  rowHi img s t - rowLo img s t

/-- Truncated column extent of column-block index `t`. -/
def cext (img : Image) (s : Settings) (t : ℕ) : ℕ :=
  colHi img s t - colLo img s t

/-- Pixel `(r, c)` lies in the (clamped) destination region of grid pair
`(i, j)`: rows `[j*b_height, j*b_height+b_height)`, columns
`[i*b_width, i*b_width+b_width)`, intersected with the image bounds. -/
def InDest (img : Image) (s : Settings) (i j r c : ℕ) : Prop :=
  rowLo img s j ≤ r ∧ r < rowHi img s j ∧ colLo img s i ≤ c ∧ c < colHi img s i

instance (img : Image) (s : Settings) (i j r c : ℕ) :
    Decidable (InDest img s i j r c) := by
  unfold InDest
  infer_instance

/-- The broadcast check of the block copy for grid pair `(i, j)`, phrased
against the image's own shape (the destination buffer always has the
image's shape). -/
def stepOK (img : Image) (s : Settings) (i j : ℕ) : Prop :=
  (rext img s i = rext img s j ∨ rext img s i = 1) ∧
  (cext img s j = cext img s i ∨ cext img s j = 1)

instance (img : Image) (s : Settings) (i j : ℕ) :
    Decidable (stepOK img s i j) := by
  unfold stepOK
  infer_instance

/-- Every grid pair's truncated source extent equals its truncated
destination extent, on both axes. -/
def ExtentsMatch (img : Image) (s : Settings) : Prop :=
  ∀ i, i < s.h_blocks → ∀ j, j < s.v_blocks →
    rext img s i = rext img s j ∧ cext img s j = cext img s i

instance (img : Image) (s : Settings) : Decidable (ExtentsMatch img s) := by
  unfold ExtentsMatch
  infer_instance

/-- The pixel written at `(r, c, k)` by the block copy of grid pair
`(i, j)`, exactly as `writeData` computes it (including the broadcast
reads for axes of source extent `1`). -/
def blockVal (img : Image) (s : Settings) (i j r c k : ℕ) : Fin 256 :=
  img.data
    (rowLo img s i + (if rext img s i = 1 then 0 else r - rowLo img s j))
    (colLo img s j + (if cext img s j = 1 then 0 else c - colLo img s i))
    (if img.channels = 1 then 0 else k)

/-- Two image buffers have the same numpy shape. -/
def sameShape (a b : Image) : Prop :=
  a.height = b.height ∧ a.width = b.width ∧ a.channels = b.channels

/-! ### Basic lemmas about the embedded primitives -/

theorem zerosLike_height (img : Image) : (Image.zerosLike img).height = img.height := rfl

theorem zerosLike_width (img : Image) : (Image.zerosLike img).width = img.width := rfl

theorem zerosLike_channels (img : Image) : (Image.zerosLike img).channels = img.channels := rfl

theorem zerosLike_data (img : Image) (r c k : ℕ) :
    (Image.zerosLike img).data r c k = 0 := rfl

theorem marginStart_le (h bp : ℕ) : marginStart h bp ≤ h := by
  unfold marginStart
  split <;> omega

/-- When a slice is read back at the offset of a position lying inside the
same slice interpreted as a destination, the broadcast adjustment is the
identity: either the extent is not `1` and the offset is `r - start`, or
the extent is `1` and the position is forced to equal the start. -/
theorem srcIndex_eq {a b n r : ℕ} (h1 : min a n ≤ r) (h2 : r < min b n) :
    min a n + (if sliceExt a b n = 1 then 0 else r - min a n) = r := by
  unfold sliceExt
  split <;> omega

/-- The channel broadcast is the identity on in-range channel indices. -/
theorem chan_broadcast_eq {ch k : ℕ} (hk : k < ch) :
    (if ch = 1 then 0 else k) = k := by
  split <;> omega

/-- Consecutive multiples cut out disjoint ranges even after clamping: a
position cannot lie in the clamped ranges `[t*b, t*b+b)` and `[u*b, u*b+b)`
for distinct `t` and `u`. -/
theorem clamped_interval_disjoint {b n t u r : ℕ} (hne : t ≠ u)
    (h1 : min (t * b) n ≤ r) (h2 : r < min (t * b + b) n)
    (h3 : min (u * b) n ≤ r) (h4 : r < min (u * b + b) n) : False := by
  rcases Nat.lt_or_ge t u with hlt | hge
  · have h5 : (t + 1) * b ≤ u * b := Nat.mul_le_mul_right b hlt
    rw [Nat.succ_mul] at h5
    omega
  · have hlt2 : u < t := lt_of_le_of_ne hge (Ne.symm hne)
    have h5 : (u + 1) * b ≤ t * b := Nat.mul_le_mul_right b hlt2
    rw [Nat.succ_mul] at h5
    omega

/-- Destination regions of distinct grid pairs are disjoint: distinct row
blocks occupy disjoint row ranges and distinct column blocks occupy
disjoint column ranges. -/
theorem InDest_disjoint {img : Image} {s : Settings} {i j i2 j2 r c : ℕ}
    (hne : (i, j) ≠ (i2, j2))
    (h1 : InDest img s i j r c) (h2 : InDest img s i2 j2 r c) : False := by
  obtain ⟨hr1, hr2, hc1, hc2⟩ := h1
  obtain ⟨hr3, hr4, hc3, hc4⟩ := h2
  have hne2 : i ≠ i2 ∨ j ≠ j2 := by
    by_contra hcon
    push_neg at hcon
    exact hne (by rw [hcon.1, hcon.2])
  rcases hne2 with hni | hnj
  · exact clamped_interval_disjoint hni hc1 hc2 hc3 hc4
  · exact clamped_interval_disjoint hnj hr1 hr2 hr3 hr4

/-- The bottom-margin copy always succeeds (both slices have identical
extents) and produces the buffer that equals the input on the rows
`[marginStart, height)` and is zero elsewhere. -/
theorem marginAssign_inv (img : Image) (s : Settings) :
    ∃ M, marginAssign img s = some M ∧ sameShape M img ∧
      (∀ r c k, ¬(marginStart img.height s.bp ≤ r ∧ r < img.height ∧ c < img.width) →
        M.data r c k = 0) ∧
      (∀ r c k, k < img.channels → marginStart img.height s.bp ≤ r → r < img.height →
        c < img.width → M.data r c k = img.data r c k) := by
  have hOK : assignOK (Image.zerosLike img) (marginStart img.height s.bp) img.height 0
      img.width img (marginStart img.height s.bp) img.height 0 img.width :=
    ⟨Or.inl rfl, Or.inl rfl, Or.inl rfl⟩
  refine ⟨{ Image.zerosLike img with
      data := writeData (Image.zerosLike img) (marginStart img.height s.bp) img.height 0
        img.width img (marginStart img.height s.bp) img.height 0 img.width },
    ?_, ⟨rfl, rfl, rfl⟩, ?_, ?_⟩
  · unfold marginAssign npAssign
    rw [if_pos hOK]
  · intro r c k hnot
    have hcond : ¬(min (marginStart img.height s.bp) (Image.zerosLike img).height ≤ r ∧
        r < min img.height (Image.zerosLike img).height ∧
        min 0 (Image.zerosLike img).width ≤ c ∧
        c < min img.width (Image.zerosLike img).width) := by
      rw [zerosLike_height, zerosLike_width]
      omega
    show writeData (Image.zerosLike img) (marginStart img.height s.bp) img.height 0
        img.width img (marginStart img.height s.bp) img.height 0 img.width r c k = 0
    unfold writeData
    rw [if_neg hcond]
    exact rfl
  · intro r c k hk hr1 hr2 hcw
    have hcond : min (marginStart img.height s.bp) (Image.zerosLike img).height ≤ r ∧
        r < min img.height (Image.zerosLike img).height ∧
        min 0 (Image.zerosLike img).width ≤ c ∧
        c < min img.width (Image.zerosLike img).width := by
      rw [zerosLike_height, zerosLike_width]
      omega
    show writeData (Image.zerosLike img) (marginStart img.height s.bp) img.height 0
        img.width img (marginStart img.height s.bp) img.height 0 img.width r c k
        = img.data r c k
    unfold writeData
    rw [if_pos hcond]
    rw [zerosLike_height, zerosLike_width]
    rw [chan_broadcast_eq hk, srcIndex_eq (by omega) (by omega)]
    have hc2 : min 0 img.width + (if sliceExt 0 img.width img.width = 1 then 0
        else c - min 0 img.width) = c := srcIndex_eq (by omega) (by omega)
    rw [hc2]

/-- Characterisation of a successful block copy: the shape is preserved,
destination-region pixels take the pair's source values (with numpy's
broadcast adjustments), and all other pixels are untouched. -/
theorem blockAssign_some_inv {img : Image} {s : Settings} {acc out : Image} {i j : ℕ}
    (hsh : sameShape acc img) (h : blockAssign img s acc i j = some out) :
    sameShape out img ∧
    (∀ r c k, InDest img s i j r c → out.data r c k = blockVal img s i j r c k) ∧
    (∀ r c k, ¬ InDest img s i j r c → out.data r c k = acc.data r c k) := by
  obtain ⟨hh, hw, hch⟩ := hsh
  unfold blockAssign npAssign at h
  split at h
  case isFalse => exact Option.noConfusion h
  case isTrue hOK =>
    injection h with h2
    subst h2
    refine ⟨⟨hh, hw, hch⟩, ?_, ?_⟩
    · intro r c k hin
      have hin2 : min (j * s.b_height) acc.height ≤ r ∧
          r < min (j * s.b_height + s.b_height) acc.height ∧
          min (i * s.b_width) acc.width ≤ c ∧
          c < min (i * s.b_width + s.b_width) acc.width := by
        rw [hh, hw]
        exact hin
      show writeData acc (j * s.b_height) (j * s.b_height + s.b_height)
          (i * s.b_width) (i * s.b_width + s.b_width) img (i * s.b_height)
          (i * s.b_height + s.b_height) (j * s.b_width) (j * s.b_width + s.b_width)
          r c k = blockVal img s i j r c k
      unfold writeData blockVal rext cext rowHi rowLo colHi colLo sliceExt
      rw [if_pos hin2, hh, hw]
    · intro r c k hnot
      have hnot2 : ¬(min (j * s.b_height) acc.height ≤ r ∧
          r < min (j * s.b_height + s.b_height) acc.height ∧
          min (i * s.b_width) acc.width ≤ c ∧
          c < min (i * s.b_width + s.b_width) acc.width) := by
        rw [hh, hw]
        exact hnot
      show writeData acc (j * s.b_height) (j * s.b_height + s.b_height)
          (i * s.b_width) (i * s.b_width + s.b_width) img (i * s.b_height)
          (i * s.b_height + s.b_height) (j * s.b_width) (j * s.b_width + s.b_width)
          r c k = acc.data r c k
      unfold writeData
      rw [if_neg hnot2]

/-- A block copy whose broadcast check passes succeeds. -/
theorem blockAssign_isSome {img : Image} {s : Settings} {acc : Image} {i j : ℕ}
    (hsh : sameShape acc img) (h : stepOK img s i j) :
    ∃ out, blockAssign img s acc i j = some out := by
  obtain ⟨hh, hw, hch⟩ := hsh
  have hOK : assignOK acc (j * s.b_height) (j * s.b_height + s.b_height)
      (i * s.b_width) (i * s.b_width + s.b_width) img (i * s.b_height)
      (i * s.b_height + s.b_height) (j * s.b_width) (j * s.b_width + s.b_width) := by
    unfold stepOK rext cext rowHi rowLo colHi colLo at h
    unfold assignOK sliceExt
    rw [hh, hw]
    exact ⟨h.1, h.2, Or.inl hch.symm⟩
  unfold blockAssign npAssign
  rw [if_pos hOK]
  exact ⟨_, rfl⟩

/-- A block copy whose broadcast check fails raises (`none`). -/
theorem blockAssign_eq_none {img : Image} {s : Settings} {acc : Image} {i j : ℕ}
    (hsh : sameShape acc img) (h : ¬ stepOK img s i j) :
    blockAssign img s acc i j = none := by
  obtain ⟨hh, hw, hch⟩ := hsh
  have hnOK : ¬ assignOK acc (j * s.b_height) (j * s.b_height + s.b_height)
      (i * s.b_width) (i * s.b_width + s.b_width) img (i * s.b_height)
      (i * s.b_height + s.b_height) (j * s.b_width) (j * s.b_width + s.b_width) := by
    intro hOK
    apply h
    unfold assignOK sliceExt at hOK
    rw [hh, hw] at hOK
    unfold stepOK rext cext rowHi rowLo colHi colLo
    exact ⟨hOK.1, hOK.2.1⟩
  unfold blockAssign npAssign
  rw [if_neg hnOK]

/-- Characterisation of a successful run of the block-copy loop over a
list of grid pairs: each pixel covered by some listed pair's destination
region carries that pair's copied value (destination regions of distinct
pairs are disjoint, and a repeated pair rewrites the same value), and
pixels covered by no listed pair are untouched. -/
theorem runBlocks_some_inv {img : Image} {s : Settings} :
    ∀ (l : List (ℕ × ℕ)) (acc out : Image), sameShape acc img →
      runBlocks img s acc l = some out →
      sameShape out img ∧
      (∀ p ∈ l, ∀ r c k, InDest img s p.1 p.2 r c →
          out.data r c k = blockVal img s p.1 p.2 r c k) ∧
      (∀ r c k, (∀ p ∈ l, ¬ InDest img s p.1 p.2 r c) →
          out.data r c k = acc.data r c k) := by
  intro l
  induction l with
  | nil =>
      intro acc out hsh h
      obtain rfl : acc = out := by simpa [runBlocks] using h
      exact ⟨hsh, by simp, fun r c k _ => rfl⟩
  | cons q ps ih =>
      intro acc out hsh h
      unfold runBlocks at h
      obtain ⟨a, ha, hrest⟩ := Option.bind_eq_some.mp h
      obtain ⟨hsha, hahit, hamiss⟩ := blockAssign_some_inv hsh ha
      obtain ⟨hsho, hhit, hmiss⟩ := ih a out hsha hrest
      refine ⟨hsho, ?_, ?_⟩
      · intro p hp r c k hin
        rcases List.mem_cons.mp hp with h1 | hp2
        · by_cases hcov : ∃ p2 ∈ ps, InDest img s p2.1 p2.2 r c
          · obtain ⟨p2, hp2, hin2⟩ := hcov
            have heq2 : p2 = p := by
              by_contra hne
              have hne2 : (p2.1, p2.2) ≠ (p.1, p.2) := hne
              exact InDest_disjoint hne2 hin2 hin
            subst heq2
            exact hhit p2 hp2 r c k hin
          · push_neg at hcov
            rw [hmiss r c k hcov]
            rw [h1] at hin ⊢
            exact hahit r c k hin
        · exact hhit p hp2 r c k hin
      · intro r c k hnone
        rw [hmiss r c k (fun p hp => hnone p (List.mem_cons_of_mem q hp)),
          hamiss r c k (hnone q (List.mem_cons_self q ps))]

/-- If every listed pair passes the broadcast check, the loop succeeds. -/
theorem runBlocks_isSome {img : Image} {s : Settings} :
    ∀ (l : List (ℕ × ℕ)) (acc : Image), sameShape acc img →
      (∀ p ∈ l, stepOK img s p.1 p.2) → ∃ out, runBlocks img s acc l = some out := by
  intro l
  induction l with
  | nil => intro acc _ _; exact ⟨acc, rfl⟩
  | cons q ps ih =>
      intro acc hsh hall
      obtain ⟨a, ha⟩ := blockAssign_isSome hsh (hall q (List.mem_cons_self q ps))
      obtain ⟨out, hout⟩ := ih a (blockAssign_some_inv hsh ha).1
        (fun p hp => hall p (List.mem_cons_of_mem q hp))
      refine ⟨out, ?_⟩
      unfold runBlocks
      rw [ha]
      simpa using hout

/-- If some listed pair fails the broadcast check, the loop raises. -/
theorem runBlocks_eq_none {img : Image} {s : Settings} :
    ∀ (l : List (ℕ × ℕ)) (acc : Image), sameShape acc img →
      (∃ p ∈ l, ¬ stepOK img s p.1 p.2) → runBlocks img s acc l = none := by
  intro l
  induction l with
  | nil =>
      rintro acc _ ⟨p, hp, _⟩
      exact absurd hp (List.not_mem_nil p)
  | cons q ps ih =>
      rintro acc hsh ⟨p, hp, hbad⟩
      unfold runBlocks
      by_cases hq : stepOK img s q.1 q.2
      · obtain ⟨a, ha⟩ := blockAssign_isSome hsh hq
        rw [ha]
        have hres : runBlocks img s a ps = none := by
          apply ih a (blockAssign_some_inv hsh ha).1
          rcases List.mem_cons.mp hp with h1 | hp2
          · rw [h1] at hbad
            exact absurd hq hbad
          · exact ⟨p, hp2, hbad⟩
        simpa using hres
      · rw [blockAssign_eq_none hsh hq]
        rfl

/-- The loop enumeration visits exactly the grid pairs
`i < h_blocks`, `j < v_blocks`. -/
theorem mem_gridPairs {s : Settings} {p : ℕ × ℕ} :
    p ∈ gridPairs s ↔ p.1 < s.h_blocks ∧ p.2 < s.v_blocks := by
  unfold gridPairs
  constructor
  · intro hp
    obtain ⟨i, hi, hp2⟩ := List.mem_flatMap.mp hp
    obtain ⟨j, hj, hpe⟩ := List.mem_map.mp hp2
    rw [← hpe]
    exact ⟨List.mem_range.mp hi, List.mem_range.mp hj⟩
  · rintro ⟨h1, h2⟩
    refine List.mem_flatMap.mpr ⟨p.1, List.mem_range.mpr h1, ?_⟩
    exact List.mem_map.mpr ⟨p.2, List.mem_range.mpr h2, rfl⟩

/-- The swapped enumeration visits the same grid pairs. -/
theorem mem_gridPairsSwapped {s : Settings} {p : ℕ × ℕ} :
    p ∈ gridPairsSwapped s ↔ p.1 < s.h_blocks ∧ p.2 < s.v_blocks := by
  unfold gridPairsSwapped
  constructor
  · intro hp
    obtain ⟨j, hj, hp2⟩ := List.mem_flatMap.mp hp
    obtain ⟨i, hi, hpe⟩ := List.mem_map.mp hp2
    rw [← hpe]
    exact ⟨List.mem_range.mp hi, List.mem_range.mp hj⟩
  · rintro ⟨h1, h2⟩
    refine List.mem_flatMap.mpr ⟨p.2, List.mem_range.mpr h2, ?_⟩
    exact List.mem_map.mpr ⟨p.1, List.mem_range.mpr h1, rfl⟩

/-- Full characterisation of a successful `reshuffle_image`: shape is
preserved; a pixel inside the destination region of a grid pair carries
that pair's copied value; a pixel covered by no destination region carries
the input pixel if it lies in the margin rows `[marginStart, height)`, and
zero otherwise. -/
theorem reshuffle_some_inv {img : Image} {s : Settings} {out : Image}
    (h : reshuffle_image img s = some out) :
    sameShape out img ∧
    (∀ i j r c k, i < s.h_blocks → j < s.v_blocks → InDest img s i j r c →
        out.data r c k = blockVal img s i j r c k) ∧
    (∀ r c k, k < img.channels →
        (∀ i j, i < s.h_blocks → j < s.v_blocks → ¬ InDest img s i j r c) →
        marginStart img.height s.bp ≤ r → r < img.height → c < img.width →
        out.data r c k = img.data r c k) ∧
    (∀ r c k, (∀ i j, i < s.h_blocks → j < s.v_blocks → ¬ InDest img s i j r c) →
        ¬(marginStart img.height s.bp ≤ r ∧ r < img.height ∧ c < img.width) →
        out.data r c k = 0) := by
  obtain ⟨M, hM, hshM, hM0, hMi⟩ := marginAssign_inv img s
  unfold reshuffle_image at h
  rw [hM, Option.some_bind] at h
  obtain ⟨hsho, hhit, hmiss⟩ := runBlocks_some_inv (gridPairs s) M out hshM h
  refine ⟨hsho, ?_, ?_, ?_⟩
  · intro i j r c k hi hj hin
    exact hhit (i, j) (mem_gridPairs.mpr ⟨hi, hj⟩) r c k hin
  · intro r c k hk hnone hr1 hr2 hcw
    rw [hmiss r c k
      (fun p hp => hnone p.1 p.2 (mem_gridPairs.mp hp).1 (mem_gridPairs.mp hp).2)]
    exact hMi r c k hk hr1 hr2 hcw
  · intro r c k hnone hnm
    rw [hmiss r c k
      (fun p hp => hnone p.1 p.2 (mem_gridPairs.mp hp).1 (mem_gridPairs.mp hp).2)]
    exact hM0 r c k hnm

/-- If every grid pair passes the broadcast check, `reshuffle_image`
raises no error. -/
theorem reshuffle_isSome {img : Image} {s : Settings}
    (h : ∀ i, i < s.h_blocks → ∀ j, j < s.v_blocks → stepOK img s i j) :
    ∃ out, reshuffle_image img s = some out := by
  obtain ⟨M, hM, hshM, _, _⟩ := marginAssign_inv img s
  obtain ⟨out, hout⟩ := runBlocks_isSome (gridPairs s) M hshM
    (fun p hp => h p.1 (mem_gridPairs.mp hp).1 p.2 (mem_gridPairs.mp hp).2)
  refine ⟨out, ?_⟩
  unfold reshuffle_image
  rw [hM, Option.some_bind, hout]

/-- If some grid pair fails the broadcast check, `reshuffle_image`
raises (`none`). -/
theorem reshuffle_eq_none {img : Image} {s : Settings} {i j : ℕ}
    (hi : i < s.h_blocks) (hj : j < s.v_blocks) (hbad : ¬ stepOK img s i j) :
    reshuffle_image img s = none := by
  obtain ⟨M, hM, hshM, _, _⟩ := marginAssign_inv img s
  unfold reshuffle_image
  rw [hM, Option.some_bind]
  exact runBlocks_eq_none (gridPairs s) M hshM ⟨(i, j), mem_gridPairs.mpr ⟨hi, hj⟩, hbad⟩

/-- Matching truncated extents satisfy the broadcast check. -/
theorem stepOK_of_extents {img : Image} {s : Settings} (h : ExtentsMatch img s)
    {i j : ℕ} (hi : i < s.h_blocks) (hj : j < s.v_blocks) : stepOK img s i j :=
  ⟨Or.inl (h i hi j hj).1, Or.inl (h i hi j hj).2⟩

/-- A row block lying within the image height has the full extent. -/
theorem rext_of_inbounds {img : Image} {s : Settings} {t m : ℕ} (ht : t < m)
    (hb : m * s.b_height ≤ img.height) : rext img s t = s.b_height := by
  unfold rext rowHi rowLo
  have h5 : (t + 1) * s.b_height ≤ m * s.b_height :=
    Nat.mul_le_mul_right _ (by omega)
  rw [Nat.succ_mul] at h5
  omega

/-- A column block lying within the image width has the full extent. -/
theorem cext_of_inbounds {img : Image} {s : Settings} {t m : ℕ} (ht : t < m)
    (hb : m * s.b_width ≤ img.width) : cext img s t = s.b_width := by
  unfold cext colHi colLo
  have h5 : (t + 1) * s.b_width ≤ m * s.b_width :=
    Nat.mul_le_mul_right _ (by omega)
  rw [Nat.succ_mul] at h5
  omega

/-- When a pair's truncated source and destination extents agree, the
broadcast adjustments vanish and the copied value is the source pixel at
the offset of the position inside the destination region, anchored at the
starts of the two ranges. -/
theorem blockVal_of_extents_eq {img : Image} {s : Settings} {i j r c : ℕ} (k : ℕ)
    (hr : rext img s i = rext img s j) (hc : cext img s j = cext img s i)
    (hin : InDest img s i j r c) :
    blockVal img s i j r c k =
      img.data (rowLo img s i + (r - rowLo img s j))
        (colLo img s j + (c - colLo img s i))
        (if img.channels = 1 then 0 else k) := by
  obtain ⟨h1, h2, h3, h4⟩ := hin
  unfold blockVal
  have e1 : (if rext img s i = 1 then 0 else r - rowLo img s j) = r - rowLo img s j := by
    split
    case isTrue hone =>
      rw [hone] at hr
      simp only [rext, rowHi, rowLo] at hr h1 h2 ⊢
      omega
    case isFalse => rfl
  have e2 : (if cext img s j = 1 then 0 else c - colLo img s i) = c - colLo img s i := by
    split
    case isTrue hone =>
      rw [hone] at hc
      simp only [cext, colHi, colLo] at hc h3 h4 ⊢
      omega
    case isFalse => rfl
  rw [e1, e2]

/-! ### Concrete test inputs for witnesses and counterexamples -/

/-- A 3 x 1 single-channel image with distinct row values. -/
def imgTall : Image :=
  ⟨3, 1, 1, fun r _ _ => if r = 1 then 5 else if r = 2 then 7 else 3⟩

/-- Settings `(b_height, b_width, h_blocks, v_blocks, bp) = (1,1,1,1,0)`. -/
def settingsA : Settings := ⟨1, 1, 1, 1, 0⟩

/-- Settings `(1,1,1,1,1)`: one 1 x 1 block and a one-row bottom margin. -/
def settingsB : Settings := ⟨1, 1, 1, 1, 1⟩

/-- A 2 x 2 single-channel image with four distinct pixels. -/
def imgSquare : Image :=
  ⟨2, 2, 1, fun r c _ =>
    if r = 0 ∧ c = 0 then 1 else if r = 0 ∧ c = 1 then 2
    else if r = 1 ∧ c = 0 then 4 else 8⟩

/-- Settings `(1,1,2,2,0)`: a 2 x 2 grid of 1 x 1 blocks, no margin. -/
def settingsSquare : Settings := ⟨1, 1, 2, 2, 0⟩

/-- A 3 x 4 all-zero single-channel image. -/
def imgWide : Image := ⟨3, 4, 1, fun _ _ _ => 0⟩

/-- Settings `(2,2,1,2,0)`: the pair `(0,1)` has destination rows `[2,4)`
truncated to one row while its source rows `[0,2)` keep two rows, so the
block copy hits a numpy broadcast error on `imgWide`. -/
def settingsTrunc : Settings := ⟨2, 2, 1, 2, 0⟩

/-- A 1 x 1 single-channel image. -/
def imgTiny : Image := ⟨1, 1, 1, fun _ _ _ => 9⟩

/-- Settings `(2,1,1,1,0)`: the single block overhangs the bottom of
`imgTiny`, but source and destination truncate to the same extent. -/
def settingsOverhang : Settings := ⟨2, 1, 1, 1, 0⟩

/-- Settings `(2,2,2,1,0)`: on `imgWide` the pair `(1, 0)` has a clamped
source row extent of `1` against a destination row extent of `2`, which
numpy broadcasts — the run succeeds even though the extents differ. -/
def settingsBroadcast : Settings := ⟨2, 2, 2, 1, 0⟩

/-! ### The claims -/

/-- C1: for every image buffer and settings, and each grid pair
`i < h_blocks`, `j < v_blocks`, `reshuffle_image` copies the source region
at rows `[i*bh, i*bh+bh)`, columns `[j*bw, j*bw+bw)` to the destination
region at rows `[j*bh, j*bh+bh)`, columns `[i*bw, i*bw+bw)`: when all
source and destination regions lie within the image bounds, every output
pixel inside a destination region equals the corresponding pixel of that
pair's source region. -/
theorem claim1_block_transpose_copy (img : Image) (s : Settings)
    (h1 : s.h_blocks * s.b_height ≤ img.height)
    (h2 : s.v_blocks * s.b_height ≤ img.height)
    (h3 : s.h_blocks * s.b_width ≤ img.width)
    (h4 : s.v_blocks * s.b_width ≤ img.width)
    (i j r c k : ℕ) (hi : i < s.h_blocks) (hj : j < s.v_blocks)
    (hr : r < s.b_height) (hcb : c < s.b_width) (hk : k < img.channels) :
    ∃ out, reshuffle_image img s = some out ∧
      out.data (j * s.b_height + r) (i * s.b_width + c) k
        = img.data (i * s.b_height + r) (j * s.b_width + c) k := by
  have hOK : ∀ a, a < s.h_blocks → ∀ b, b < s.v_blocks → stepOK img s a b := by
    intro a ha b hb
    refine ⟨Or.inl ?_, Or.inl ?_⟩
    · rw [rext_of_inbounds ha h1, rext_of_inbounds hb h2]
    · rw [cext_of_inbounds hb h4, cext_of_inbounds ha h3]
  obtain ⟨out, hout⟩ := reshuffle_isSome hOK
  have hjb : j * s.b_height + s.b_height ≤ img.height := by
    have h5 : (j + 1) * s.b_height ≤ s.v_blocks * s.b_height :=
      Nat.mul_le_mul_right _ (by omega)
    rw [Nat.succ_mul] at h5
    omega
  have hib : i * s.b_height + s.b_height ≤ img.height := by
    have h5 : (i + 1) * s.b_height ≤ s.h_blocks * s.b_height :=
      Nat.mul_le_mul_right _ (by omega)
    rw [Nat.succ_mul] at h5
    omega
  have hiw : i * s.b_width + s.b_width ≤ img.width := by
    have h5 : (i + 1) * s.b_width ≤ s.h_blocks * s.b_width :=
      Nat.mul_le_mul_right _ (by omega)
    rw [Nat.succ_mul] at h5
    omega
  have hjw : j * s.b_width + s.b_width ≤ img.width := by
    have h5 : (j + 1) * s.b_width ≤ s.v_blocks * s.b_width :=
      Nat.mul_le_mul_right _ (by omega)
    rw [Nat.succ_mul] at h5
    omega
  have hin : InDest img s i j (j * s.b_height + r) (i * s.b_width + c) := by
    unfold InDest rowLo rowHi colLo colHi
    omega
  have hval := (reshuffle_some_inv hout).2.1 i j _ _ k hi hj hin
  rw [blockVal_of_extents_eq k
    (by rw [rext_of_inbounds hi h1, rext_of_inbounds hj h2])
    (by rw [cext_of_inbounds hj h4, cext_of_inbounds hi h3]) hin] at hval
  refine ⟨out, hout, ?_⟩
  rw [hval, chan_broadcast_eq hk]
  have e1 : rowLo img s i + (j * s.b_height + r - rowLo img s j)
      = i * s.b_height + r := by
    unfold rowLo
    omega
  have e2 : colLo img s j + (i * s.b_width + c - colLo img s i)
      = j * s.b_width + c := by
    unfold colLo
    omega
  rw [e1, e2]

/-- Witness for C1 on the concrete square image: pair `(i, j) = (0, 1)`
moves the source pixel at `(1, 0)` to the destination pixel at `(0, 1)`. -/
theorem claim1_block_transpose_copy_witness :
    settingsSquare.h_blocks * settingsSquare.b_height ≤ imgSquare.height ∧
    (∃ out, reshuffle_image imgSquare settingsSquare = some out ∧
      out.data (1 * settingsSquare.b_height + 0) (0 * settingsSquare.b_width + 0) 0
        = imgSquare.data (0 * settingsSquare.b_height + 0)
            (1 * settingsSquare.b_width + 0) 0) :=
  ⟨by decide,
   claim1_block_transpose_copy imgSquare settingsSquare (by decide) (by decide)
     (by decide) (by decide) 0 1 0 0 0 (by decide) (by decide) (by decide)
     (by decide) (by decide)⟩

/-- C2 counterexample: on a 3 x 4 image with settings `(2,2,1,2,0)` the
grid pair `(0, 1)` has a two-row source slice but a one-row (truncated)
destination slice, so `reshuffle_image` raises a broadcast `ValueError`
(`none`) instead of silently copying the overlap. -/
theorem claim2_truncation_counterexample :
    reshuffle_image imgWide settingsTrunc = none := by rfl

/-- C2 (amended): out-of-range regions are implicitly clamped to the
array bounds, and `reshuffle_image` raises no error precisely when every
grid pair's clamped source extent, on each axis, either equals the
clamped destination extent or is `1` (numpy's broadcast rule, `stepOK`);
when a pair's clamped extents agree exactly, the assignment copies only
the overlapping element count, anchored at the start of each range.  A
pair with a clamped source extent that both differs from its destination
extent and is not `1` therefore makes the underlying assignment raise a
broadcast `ValueError` — the `false` side of the equivalence, exhibited
concretely by the counterexample. -/
theorem claim2_truncation_amended (img : Image) (s : Settings) :
    ((reshuffle_image img s).isSome = true ↔
      ∀ i, i < s.h_blocks → ∀ j, j < s.v_blocks → stepOK img s i j) ∧
    (∀ i j r c k, ExtentsMatch img s → i < s.h_blocks → j < s.v_blocks →
      InDest img s i j r c → k < img.channels →
      ∃ out, reshuffle_image img s = some out ∧
        out.data r c k =
          img.data (rowLo img s i + (r - rowLo img s j))
            (colLo img s j + (c - colLo img s i)) k) := by
  constructor
  · constructor
    · intro hsome
      by_contra hneg
      push_neg at hneg
      obtain ⟨i, hi, j, hj, hbad⟩ := hneg
      rw [reshuffle_eq_none hi hj hbad] at hsome
      simp at hsome
    · intro hok
      obtain ⟨out, hout⟩ := reshuffle_isSome hok
      rw [hout]
      rfl
  · intro i j r c k hm hi hj hin hk
    obtain ⟨out, hout⟩ := reshuffle_isSome (fun a ha b hb => stepOK_of_extents hm ha hb)
    have hval := (reshuffle_some_inv hout).2.1 i j r c k hi hj hin
    rw [blockVal_of_extents_eq k (hm i hi j hj).1 (hm i hi j hj).2 hin,
      chan_broadcast_eq hk] at hval
    exact ⟨out, hout, hval⟩

/-- Witness for amended C2: on a 1 x 1 image with block height 2, the
single block's slices are clamped to one row on both sides and the copy
happens anchored at the range starts; and on the 3 x 4 image with
settings `(2,2,2,1,0)`, pair `(1, 0)` has a clamped source row extent of
`1` against a destination extent of `2`, which numpy broadcasts, so that
run raises no error. -/
theorem claim2_truncation_amended_witness :
    ExtentsMatch imgTiny settingsOverhang ∧
    (∃ out, reshuffle_image imgTiny settingsOverhang = some out ∧
      out.data 0 0 0 =
        imgTiny.data
          (rowLo imgTiny settingsOverhang 0 + (0 - rowLo imgTiny settingsOverhang 0))
          (colLo imgTiny settingsOverhang 0 + (0 - colLo imgTiny settingsOverhang 0))
          0) ∧
    (reshuffle_image imgWide settingsBroadcast).isSome = true :=
  ⟨by decide,
   (claim2_truncation_amended imgTiny settingsOverhang).2 0 0 0 0 0 (by decide)
     (by decide) (by decide) (by decide) (by decide),
   (claim2_truncation_amended imgWide settingsBroadcast).1.mpr (by decide)⟩

/-- C3 counterexample: with `bp = 0`, the pixel `(2, 0)` of `imgTall` lies
outside every destination region, yet the output carries the input value
`7` there instead of the zero the claim demands: the Python slice `[-0:]`
selects all rows, so the margin step copies the whole image. -/
theorem claim3_margin_noop_counterexample :
    (∀ i, i < settingsA.h_blocks → ∀ j, j < settingsA.v_blocks →
      ¬ InDest imgTall settingsA i j 2 0) ∧
    (reshuffle_image imgTall settingsA).map (fun o => o.data 2 0 0) = some 7 := by
  constructor
  · decide
  · decide

/-- C3 (amended): with `bp = 0` the bottom-margin step is NOT a no-op: the
slice `[-0:]` is the full row range, so the step copies the entire image,
and every output pixel outside every destination region equals the
corresponding input pixel (rather than zero). -/
theorem claim3_margin_full_copy_amended (img : Image) (s : Settings)
    (hbp : s.bp = 0) (hsome : (reshuffle_image img s).isSome = true)
    (r c k : ℕ) (hr : r < img.height) (hcw : c < img.width)
    (hk : k < img.channels)
    (hnone : ∀ i, i < s.h_blocks → ∀ j, j < s.v_blocks → ¬ InDest img s i j r c) :
    ∃ out, reshuffle_image img s = some out ∧ out.data r c k = img.data r c k := by
  obtain ⟨out, h⟩ := Option.isSome_iff_exists.mp hsome
  have hms : marginStart img.height s.bp = 0 := by
    unfold marginStart
    rw [hbp]
    rfl
  refine ⟨out, h, ?_⟩
  exact (reshuffle_some_inv h).2.2.1 r c k hk (fun i j hi hj => hnone i hi j hj)
    (by omega) hr hcw

/-- Witness for amended C3 at the concrete input of the counterexample. -/
theorem claim3_margin_full_copy_amended_witness :
    (reshuffle_image imgTall settingsA).isSome = true ∧
    (∃ out, reshuffle_image imgTall settingsA = some out ∧
      out.data 2 0 0 = imgTall.data 2 0 0) :=
  ⟨by decide,
   claim3_margin_full_copy_amended imgTall settingsA (by decide) (by decide)
     2 0 0 (by decide) (by decide) (by decide) (by decide)⟩

/-- C4: for `bp > 0` and `height ≥ bp`, a pixel in the last `bp` rows of
the output equals the corresponding input pixel wherever no destination
region covers it, and carries the covering pair's copied block value where
one does — the margin fill happens before the block copies, so blocks take
precedence inside the overlap. -/
theorem claim4_margin_fidelity (img : Image) (s : Settings)
    (hbp : 0 < s.bp) (hple : s.bp ≤ img.height)
    (hsome : (reshuffle_image img s).isSome = true)
    (r c k : ℕ) (hr1 : img.height - s.bp ≤ r) (hr2 : r < img.height)
    (hcw : c < img.width) (hk : k < img.channels) :
    ∃ out, reshuffle_image img s = some out ∧
      ((∀ i, i < s.h_blocks → ∀ j, j < s.v_blocks → ¬ InDest img s i j r c) →
        out.data r c k = img.data r c k) ∧
      (∀ i, i < s.h_blocks → ∀ j, j < s.v_blocks → InDest img s i j r c →
        out.data r c k = blockVal img s i j r c k) := by
  obtain ⟨out, h⟩ := Option.isSome_iff_exists.mp hsome
  have hms : marginStart img.height s.bp = img.height - s.bp := by
    unfold marginStart
    split
    · omega
    · rfl
  refine ⟨out, h, ?_, ?_⟩
  · intro hnone
    exact (reshuffle_some_inv h).2.2.1 r c k hk (fun i j hi hj => hnone i hi j hj)
      (by omega) hr2 hcw
  · intro i hi j hj hin
    exact (reshuffle_some_inv h).2.1 i j r c k hi hj hin

/-- Witness for C4: with one 1 x 1 block and a one-row margin on the 3 x 1
image, the margin row `2` survives into the output. -/
theorem claim4_margin_fidelity_witness :
    0 < settingsB.bp ∧
    (∃ out, reshuffle_image imgTall settingsB = some out ∧
      ((∀ i, i < settingsB.h_blocks → ∀ j, j < settingsB.v_blocks →
          ¬ InDest imgTall settingsB i j 2 0) →
        out.data 2 0 0 = imgTall.data 2 0 0) ∧
      (∀ i, i < settingsB.h_blocks → ∀ j, j < settingsB.v_blocks →
          InDest imgTall settingsB i j 2 0 →
          out.data 2 0 0 = blockVal imgTall settingsB i j 2 0 0)) :=
  ⟨by decide,
   claim4_margin_fidelity imgTall settingsB (by decide) (by decide) (by decide)
     2 0 0 (by decide) (by decide) (by decide) (by decide)⟩

/-- Row extents depend only on the image height. -/
theorem rext_shape_congr {a b : Image} {s : Settings} (hh : a.height = b.height)
    (t : ℕ) : rext a s t = rext b s t := by
  unfold rext rowHi rowLo
  rw [hh]

/-- Column extents depend only on the image width. -/
theorem cext_shape_congr {a b : Image} {s : Settings} (hw : a.width = b.width)
    (t : ℕ) : cext a s t = cext b s t := by
  unfold cext colHi colLo
  rw [hw]

/-- Destination regions depend only on the image shape. -/
theorem InDest_shape_congr {a b : Image} {s : Settings} (hh : a.height = b.height)
    (hw : a.width = b.width) {i j r c : ℕ} :
    InDest a s i j r c ↔ InDest b s i j r c := by
  unfold InDest rowLo rowHi colLo colHi
  rw [hh, hw]

/-- C5 counterexample: with the valid square settings `(1,1,1,1,1)` on the
3 x 1 image, row `1` is covered neither by the single 1 x 1 block nor by
the one-row bottom margin, so both applications zero it: the double
reshuffle yields `0` there while the original pixel is `5`. -/
theorem claim5_involution_counterexample :
    ((reshuffle_image imgTall settingsB).bind fun o =>
        reshuffle_image o settingsB).map (fun o => o.data 1 0 0) = some 0 ∧
    imgTall.data 1 0 0 = 5 := by
  constructor
  · decide
  · decide

/-- C5 (amended): for square settings (`h_blocks = v_blocks`,
`b_height = b_width`, block size at least 1) whose grid tiles the full
width, fits the height, and whose bottom margin covers the rows below the
grid, applying `reshuffle_image` twice restores the original image
exactly. -/
theorem claim5_square_involution_amended (img : Image) (s : Settings)
    (hcv : s.h_blocks = s.v_blocks) (hbb : s.b_height = s.b_width)
    (hb1 : 1 ≤ s.b_height)
    (hrows : s.v_blocks * s.b_height ≤ img.height)
    (hcols : s.h_blocks * s.b_width = img.width)
    (hcover : img.height ≤ s.v_blocks * s.b_height + s.bp) :
    ∃ out1 out2, reshuffle_image img s = some out1 ∧
      reshuffle_image out1 s = some out2 ∧ sameShape out2 img ∧
      ∀ r c k, r < img.height → c < img.width → k < img.channels →
        out2.data r c k = img.data r c k := by
  have hrows2 : s.h_blocks * s.b_height ≤ img.height := by
    rw [hcv]
    exact hrows
  have hcols2 : s.v_blocks * s.b_width ≤ img.width := by
    rw [← hcv]
    omega
  have hcols3 : s.h_blocks * s.b_width ≤ img.width := le_of_eq hcols
  have hOK1 : ∀ a, a < s.h_blocks → ∀ b2, b2 < s.v_blocks → stepOK img s a b2 := by
    intro a ha b2 hb2
    refine ⟨Or.inl ?_, Or.inl ?_⟩
    · rw [rext_of_inbounds ha hrows2, rext_of_inbounds hb2 hrows]
    · rw [cext_of_inbounds hb2 hcols2, cext_of_inbounds ha hcols3]
  obtain ⟨out1, hout1⟩ := reshuffle_isSome hOK1
  obtain ⟨hsh1h, hsh1w, hsh1c⟩ := (reshuffle_some_inv hout1).1
  have hOK2 : ∀ a, a < s.h_blocks → ∀ b2, b2 < s.v_blocks → stepOK out1 s a b2 := by
    intro a ha b2 hb2
    obtain ⟨o1, o2⟩ := hOK1 a ha b2 hb2
    constructor
    · simp only [rext_shape_congr hsh1h]
      exact o1
    · simp only [cext_shape_congr hsh1w]
      exact o2
  obtain ⟨out2, hout2⟩ := reshuffle_isSome hOK2
  obtain ⟨hsh2h, hsh2w, hsh2c⟩ := (reshuffle_some_inv hout2).1
  refine ⟨out1, out2, hout1, hout2,
    ⟨hsh2h.trans hsh1h, hsh2w.trans hsh1w, hsh2c.trans hsh1c⟩, ?_⟩
  intro r c k hr hcw hk
  by_cases hgrid : r < s.v_blocks * s.b_height
  · -- the pixel lies inside the block grid
    have hdr := Nat.div_add_mod r s.b_height
    have hmr : r % s.b_height < s.b_height := Nat.mod_lt _ (by omega)
    have hcr : s.b_height * (r / s.b_height) = (r / s.b_height) * s.b_height :=
      Nat.mul_comm _ _
    have hdc := Nat.div_add_mod c s.b_width
    have hmc : c % s.b_width < s.b_width := Nat.mod_lt _ (by omega)
    have hcc : s.b_width * (c / s.b_width) = (c / s.b_width) * s.b_width :=
      Nat.mul_comm _ _
    have hj : r / s.b_height < s.v_blocks :=
      (Nat.div_lt_iff_lt_mul (by omega)).mpr hgrid
    have hi : c / s.b_width < s.h_blocks :=
      (Nat.div_lt_iff_lt_mul (by omega)).mpr (by omega)
    have p1 : (r / s.b_height + 1) * s.b_height ≤ s.v_blocks * s.b_height :=
      Nat.mul_le_mul_right _ (by omega)
    rw [Nat.succ_mul] at p1
    have p2 : (c / s.b_width + 1) * s.b_width ≤ s.h_blocks * s.b_width :=
      Nat.mul_le_mul_right _ (by omega)
    rw [Nat.succ_mul] at p2
    have p3 : (c / s.b_width + 1) * s.b_height ≤ s.v_blocks * s.b_height :=
      Nat.mul_le_mul_right _ (by omega)
    rw [Nat.succ_mul] at p3
    have p4 : (r / s.b_height + 1) * s.b_width ≤ s.h_blocks * s.b_width :=
      Nat.mul_le_mul_right _ (by omega)
    rw [Nat.succ_mul] at p4
    have hin : InDest img s (c / s.b_width) (r / s.b_height) r c := by
      unfold InDest rowLo rowHi colLo colHi
      omega
    have hin1 : InDest out1 s (c / s.b_width) (r / s.b_height) r c :=
      (InDest_shape_congr hsh1h hsh1w).mpr hin
    have hval2 := (reshuffle_some_inv hout2).2.1 (c / s.b_width) (r / s.b_height)
      r c k hi hj hin1
    rw [blockVal_of_extents_eq k
      (by simp only [rext_shape_congr hsh1h]
          rw [rext_of_inbounds hi hrows2, rext_of_inbounds hj hrows])
      (by simp only [cext_shape_congr hsh1w]
          rw [cext_of_inbounds hj hcols2, cext_of_inbounds hi hcols3]) hin1] at hval2
    have e1 : rowLo out1 s (c / s.b_width) + (r - rowLo out1 s (r / s.b_height))
        = (c / s.b_width) * s.b_height + (r - (r / s.b_height) * s.b_height) := by
      unfold rowLo
      rw [hsh1h]
      omega
    have e2 : colLo out1 s (r / s.b_height) + (c - colLo out1 s (c / s.b_width))
        = (r / s.b_height) * s.b_width + (c - (c / s.b_width) * s.b_width) := by
      unfold colLo
      rw [hsh1w]
      omega
    rw [e1, e2, chan_broadcast_eq (show k < out1.channels by omega)] at hval2
    set R2 := (c / s.b_width) * s.b_height + (r - (r / s.b_height) * s.b_height)
      with hR2
    set C2 := (r / s.b_height) * s.b_width + (c - (c / s.b_width) * s.b_width)
      with hC2
    have hin2 : InDest img s (r / s.b_height) (c / s.b_width) R2 C2 := by
      unfold InDest rowLo rowHi colLo colHi
      omega
    have hval1 := (reshuffle_some_inv hout1).2.1 (r / s.b_height) (c / s.b_width)
      R2 C2 k (by omega) (by omega) hin2
    rw [blockVal_of_extents_eq k
      (by rw [rext_of_inbounds hj hrows, rext_of_inbounds hi hrows2])
      (by rw [cext_of_inbounds hi hcols3, cext_of_inbounds hj hcols2]) hin2,
      chan_broadcast_eq hk] at hval1
    have e3 : rowLo img s (r / s.b_height) + (R2 - rowLo img s (c / s.b_width)) = r := by
      unfold rowLo
      omega
    have e4 : colLo img s (c / s.b_width) + (C2 - colLo img s (r / s.b_height)) = c := by
      unfold colLo
      omega
    rw [e3, e4] at hval1
    rw [hval2, hval1]
  · -- the pixel lies below the grid, in rows the margin must cover
    have hnone : ∀ i2 j2, i2 < s.h_blocks → j2 < s.v_blocks →
        ¬ InDest img s i2 j2 r c := by
      intro i2 j2 hi2 hj2 hin
      obtain ⟨hx1, hx2, hx3, hx4⟩ := hin
      unfold rowHi at hx2
      have p5 : (j2 + 1) * s.b_height ≤ s.v_blocks * s.b_height :=
        Nat.mul_le_mul_right _ (by omega)
      rw [Nat.succ_mul] at p5
      omega
    have hnone1 : ∀ i2 j2, i2 < s.h_blocks → j2 < s.v_blocks →
        ¬ InDest out1 s i2 j2 r c :=
      fun i2 j2 hi2 hj2 hin =>
        hnone i2 j2 hi2 hj2 ((InDest_shape_congr hsh1h hsh1w).mp hin)
    have hms1 : marginStart img.height s.bp ≤ r := by
      unfold marginStart
      split <;> omega
    have hv2 := (reshuffle_some_inv hout2).2.2.1 r c k (by omega) hnone1
      (by rw [hsh1h]; exact hms1) (by omega) (by omega)
    have hv1 := (reshuffle_some_inv hout1).2.2.1 r c k hk hnone hms1 hr hcw
    rw [hv2, hv1]

/-- Witness for amended C5 on the 2 x 2 image with a 2 x 2 grid of 1 x 1
blocks: the double reshuffle restores every pixel. -/
theorem claim5_square_involution_amended_witness :
    settingsSquare.h_blocks = settingsSquare.v_blocks ∧
    (∃ out1 out2, reshuffle_image imgSquare settingsSquare = some out1 ∧
      reshuffle_image out1 settingsSquare = some out2 ∧
      sameShape out2 imgSquare ∧
      ∀ r c k, r < imgSquare.height → c < imgSquare.width →
        k < imgSquare.channels → out2.data r c k = imgSquare.data r c k) :=
  ⟨by decide,
   claim5_square_involution_amended imgSquare settingsSquare (by decide) (by decide)
     (by decide) (by decide) (by decide) (by decide)⟩

/-- C6: for every image buffer and settings on which it runs,
`reshuffle_image` returns a buffer of the same shape
`(height, width, channels)` as its input; the sample type is the unsigned
8-bit type in both (the output buffer is allocated with `np.uint8`, which
this embedding fixes as the codomain `Fin 256` of every buffer's `data`). -/
theorem claim6_shape_preservation (img : Image) (s : Settings)
    (hsome : (reshuffle_image img s).isSome = true) :
    ∃ out, reshuffle_image img s = some out ∧ out.height = img.height ∧
      out.width = img.width ∧ out.channels = img.channels := by
  obtain ⟨out, h⟩ := Option.isSome_iff_exists.mp hsome
  obtain ⟨hh, hw, hch⟩ := (reshuffle_some_inv h).1
  exact ⟨out, h, hh, hw, hch⟩

/-- Witness for C6 on a concrete run. -/
theorem claim6_shape_preservation_witness :
    (reshuffle_image imgTall settingsB).isSome = true ∧
    (∃ out, reshuffle_image imgTall settingsB = some out ∧
      out.height = imgTall.height ∧ out.width = imgTall.width ∧
      out.channels = imgTall.channels) :=
  ⟨by decide, claim6_shape_preservation imgTall settingsB (by decide)⟩

/-- C7: for buffers of shapes `(H, W1, C)` and `(H, W2, C)`, `join_images`
yields shape `(H, W1+W2, C)`: the left `W1` columns reproduce the first
buffer exactly and the remaining `W2` columns reproduce the second, with
row order and channel layout preserved. -/
theorem claim7_join_geometry (a b : Image) (hH : a.height = b.height)
    (hC : a.channels = b.channels) :
    ∃ cimg, join_images a b = some cimg ∧ cimg.height = a.height ∧
      cimg.width = a.width + b.width ∧ cimg.channels = a.channels ∧
      (∀ r w k, r < a.height → w < a.width → k < a.channels →
        cimg.data r w k = a.data r w k) ∧
      (∀ r w k, r < a.height → w < b.width → k < a.channels →
        cimg.data r (a.width + w) k = b.data r w k) := by
  unfold join_images
  rw [if_pos ⟨hH, hC⟩]
  refine ⟨_, rfl, rfl, rfl, rfl, ?_, ?_⟩
  · intro r w k _ hw _
    show (if w < a.width then a.data r w k else b.data r (w - a.width) k)
      = a.data r w k
    rw [if_pos hw]
  · intro r w k _ hw _
    show (if a.width + w < a.width then a.data r (a.width + w) k
      else b.data r (a.width + w - a.width) k) = b.data r w k
    rw [if_neg (by omega)]
    have e : a.width + w - a.width = w := by omega
    rw [e]

/-- A 1 x 1 single-channel image, left operand for the join witnesses. -/
def imgLeft : Image := ⟨1, 1, 1, fun _ _ _ => 11⟩

/-- A 1 x 2 single-channel image, right operand for the join witness. -/
def imgRight : Image := ⟨1, 2, 1, fun _ c _ => if c = 0 then 21 else 22⟩

/-- Witness for C7 joining a 1 x 1 and a 1 x 2 buffer. -/
theorem claim7_join_geometry_witness :
    imgLeft.height = imgRight.height ∧
    (∃ cimg, join_images imgLeft imgRight = some cimg ∧
      cimg.height = imgLeft.height ∧
      cimg.width = imgLeft.width + imgRight.width ∧
      cimg.channels = imgLeft.channels ∧
      (∀ r w k, r < imgLeft.height → w < imgLeft.width → k < imgLeft.channels →
        cimg.data r w k = imgLeft.data r w k) ∧
      (∀ r w k, r < imgLeft.height → w < imgRight.width → k < imgLeft.channels →
        cimg.data r (imgLeft.width + w) k = imgRight.data r w k)) :=
  ⟨rfl, claim7_join_geometry imgLeft imgRight rfl rfl⟩

/-- C8: joining buffers of differing heights is rejected with the
dimension-mismatch error of the underlying concatenation primitive
(modelled as `none`); the inputs are not silently cropped or padded. -/
theorem claim8_join_height_mismatch (a b : Image) (h : a.height ≠ b.height) :
    join_images a b = none := by
  unfold join_images
  rw [if_neg]
  intro hcon
  exact h hcon.1

/-- A 2 x 1 single-channel image of a different height. -/
def imgDeep : Image := ⟨2, 1, 1, fun _ _ _ => 0⟩

/-- Witness for C8 on buffers of heights 1 and 2. -/
theorem claim8_join_height_mismatch_witness :
    imgLeft.height ≠ imgDeep.height ∧ join_images imgLeft imgDeep = none :=
  ⟨by decide, claim8_join_height_mismatch imgLeft imgDeep (by decide)⟩

/-- An existing file with an allowed extension. -/
def pngFile : PathInfo := ⟨"cover.png", ".png", true⟩

/-- An existing file with a disallowed extension. -/
def txtFile : PathInfo := ⟨"notes.txt", ".txt", true⟩

/-- A non-existent path with an allowed extension. -/
def ghostJpg : PathInfo := ⟨"ghost.jpg", ".jpg", false⟩

/-- C9 (documents the bug in `src/shuffler.py`): on the list
`[cover.png (exists), notes.txt (exists), ghost.jpg (does not exist)]` the
package variant (`src/shuffler/shuffler.py`) returns exactly the existing
allowed-extension path, as the claim states; the flat `src/shuffler.py`
variant — whose `is_file_exist` returns `not os.path.isfile(path)` — keeps
exactly the NON-existent path instead, and raises `NoImagesError` on a
list holding only the existing `cover.png`. -/
theorem claim9_load_files_bug_eval :
    load_files [pngFile, txtFile, ghostJpg] = some [pngFile] ∧
    load_files_flat [pngFile, txtFile, ghostJpg] = some [ghostJpg] ∧
    load_files_flat [pngFile] = none := by
  refine ⟨?_, ?_, ?_⟩ <;> decide

/-- C10: destination regions of distinct grid pairs are pairwise disjoint
— so each output pixel is written by at most one block copy — and the
result of `reshuffle_image` does not depend on the order in which the two
nested loops enumerate the grid pairs. -/
theorem claim10_disjoint_and_order_independent (img : Image) (s : Settings)
    (hbh : 1 ≤ s.b_height) (hbw : 1 ≤ s.b_width) :
    (∀ i j i2 j2 r c, i < s.h_blocks → j < s.v_blocks → i2 < s.h_blocks →
      j2 < s.v_blocks → (i, j) ≠ (i2, j2) → InDest img s i j r c →
      InDest img s i2 j2 r c → False) ∧
    reshuffle_image img s = reshuffle_image_swapped img s := by
  constructor
  · intro i j i2 j2 r c _ _ _ _ hne h1 h2
    exact InDest_disjoint hne h1 h2
  · obtain ⟨M, hM, hshM, _, _⟩ := marginAssign_inv img s
    unfold reshuffle_image reshuffle_image_swapped
    rw [hM, Option.some_bind, Option.some_bind]
    by_cases hok : ∀ p ∈ gridPairs s, stepOK img s p.1 p.2
    · have hok2 : ∀ p ∈ gridPairsSwapped s, stepOK img s p.1 p.2 := fun p hp =>
        hok p (mem_gridPairs.mpr (mem_gridPairsSwapped.mp hp))
      obtain ⟨o1, ho1⟩ := runBlocks_isSome (gridPairs s) M hshM hok
      obtain ⟨o2, ho2⟩ := runBlocks_isSome (gridPairsSwapped s) M hshM hok2
      rw [ho1, ho2]
      obtain ⟨hs1, hhit1, hmiss1⟩ := runBlocks_some_inv (gridPairs s) M o1 hshM ho1
      obtain ⟨hs2, hhit2, hmiss2⟩ :=
        runBlocks_some_inv (gridPairsSwapped s) M o2 hshM ho2
      have hdata : o1.data = o2.data := by
        funext r c k
        by_cases hcov : ∃ i, i < s.h_blocks ∧ ∃ j, j < s.v_blocks ∧
            InDest img s i j r c
        · obtain ⟨i, hi, j, hj, hin⟩ := hcov
          rw [hhit1 (i, j) (mem_gridPairs.mpr ⟨hi, hj⟩) r c k hin,
            hhit2 (i, j) (mem_gridPairsSwapped.mpr ⟨hi, hj⟩) r c k hin]
        · push_neg at hcov
          rw [hmiss1 r c k (fun p hp hin =>
              hcov p.1 (mem_gridPairs.mp hp).1 p.2 (mem_gridPairs.mp hp).2 hin),
            hmiss2 r c k (fun p hp hin =>
              hcov p.1 (mem_gridPairsSwapped.mp hp).1 p.2
                (mem_gridPairsSwapped.mp hp).2 hin)]
      have himg : o1 = o2 := by
        apply Image.ext
        · rw [hs1.1, hs2.1]
        · rw [hs1.2.1, hs2.2.1]
        · rw [hs1.2.2, hs2.2.2]
        · exact hdata
      rw [himg]
    · push_neg at hok
      obtain ⟨p, hp, hbad⟩ := hok
      rw [runBlocks_eq_none (gridPairs s) M hshM ⟨p, hp, hbad⟩,
        runBlocks_eq_none (gridPairsSwapped s) M hshM
          ⟨p, mem_gridPairsSwapped.mpr (mem_gridPairs.mp hp), hbad⟩]

/-- Witness for C10 on a concrete image and settings. -/
theorem claim10_disjoint_and_order_independent_witness :
    1 ≤ settingsB.b_height ∧
    ((∀ i j i2 j2 r c, i < settingsB.h_blocks → j < settingsB.v_blocks →
        i2 < settingsB.h_blocks → j2 < settingsB.v_blocks → (i, j) ≠ (i2, j2) →
        InDest imgTall settingsB i j r c → InDest imgTall settingsB i2 j2 r c →
        False) ∧
      reshuffle_image imgTall settingsB = reshuffle_image_swapped imgTall settingsB) :=
  ⟨by decide,
   claim10_disjoint_and_order_independent imgTall settingsB (by decide) (by decide)⟩
